import Mathlib

/-!
Verification of the Signal Extraction → Scoring → Weight-Adaptation pipeline
(`nlp.py`, `extraction.py`, `scoring.py`, `feedback.py`).

Conventions of the embedding:
* Python strings are Lean `String`s; `x in y` (substring test) is `strIn`;
  `str.lower()` is `lowerStr` (ASCII lowering, as all catalog keywords are ASCII).
* Python floats (the stored weights) are modelled as exact rationals `ℚ`;
  `int(x)` is `pyInt` (truncation toward zero) and `round(x, 2)` is `round2`
  (round-half-to-even, Python's rounding mode).
* Optional NLP capabilities are modelled in their documented fallback form:
  NLTK absent (regex tokenizer of `get_tokens`) and spaCy absent
  (`extract_entities` returns the empty dict), the deterministic path the
  code guarantees on any environment.
* Fallible code returns `Option`: `analyze_and_score_opt none = none` models
  the `AttributeError` raised by `raw_text.lower()` on a non-string input.
-/

namespace HPCL

/- The Batteries rational-number operations are `@[irreducible]`, which only
blocks elaborator-side evaluation; restoring default reducibility lets
`decide` evaluate the exact weight arithmetic of the embedding. -/
attribute [local semireducible] Rat.mul Rat.add Rat.sub Rat.inv

/-! ## Character classes and low-level text operations -/

/-- Python regex `\s` over ASCII: space, tab, newline, carriage return,
vertical tab, form feed (`re.sub(r"\s+", " ", ...)` in `nlp.clean_text`). -/
def isPyWs (c : Char) : Bool :=
  c = ' ' || c = '\t' || c = '\n' || c = '\r' || c = '\x0b' || c = '\x0c'

/-- Python regex word character `\w` over ASCII (`[a-zA-Z0-9_]`), used for the
`\b` boundaries of the fallback tokenizer pattern in `nlp.get_tokens`. -/
def isWordChar (c : Char) : Bool :=
  ('a' ≤ c && c ≤ 'z') || ('A' ≤ c && c ≤ 'Z') || ('0' ≤ c && c ≤ '9') || c = '_'

/-- `str.lower()` (ASCII). -/
def lowerStr (s : String) : String := ⟨s.data.map Char.toLower⟩

/-- Auxiliary: list prefix test. -/
def isPre : List Char → List Char → Bool
  | [], _ => true
  | _ :: _, [] => false
  | a :: as, b :: bs => a = b && isPre as bs

/-- Auxiliary: list infix test. -/
def subIn (needle : List Char) : List Char → Bool
  | [] => needle.isEmpty
  | c :: cs => isPre needle (c :: cs) || subIn needle cs

/-- Python `needle in hay` for strings: substring containment. -/
def strIn (needle hay : String) : Bool := subIn needle.data hay.data

/-- Maximal runs of characters satisfying `p` (accumulator-based scanner). -/
def splitRunsAux (p : Char → Bool) : List Char → List Char → List (List Char)
  | [], acc => if acc.isEmpty then [] else [acc.reverse]
  | c :: cs, acc =>
    if p c then splitRunsAux p cs (c :: acc)
    else if acc.isEmpty then splitRunsAux p cs []
    else acc.reverse :: splitRunsAux p cs []

/-- Maximal runs of characters satisfying `p`, in order, delimiters dropped. -/
def splitRuns (p : Char → Bool) (l : List Char) : List (List Char) :=
  splitRunsAux p l []

/-- Python `s.split()`: maximal whitespace-free chunks. -/
def wsWords (s : String) : List String :=
  (splitRuns (fun c => !(isPyWs c)) s.data).map (fun l => ⟨l⟩)

/-- Single left-to-right pass implementing `re.sub(r"<[^>]+>", " ", text)`.
The second argument buffers a candidate tag: `some buf` holds, reversed, the
`<` together with the inner (non-`>`) characters read so far. A closing `>`
after at least one inner character completes a leftmost match, which is
replaced by one space; a `>` right after `<` (regex needs one inner character)
or end of input flushes the buffer verbatim, as the regex finds no match
there. Inner `<` characters are ordinary `[^>]` characters, as in the regex. -/
def stripTagsAux : List Char → Option (List Char) → List Char
  | [], none => []
  | [], some buf => buf.reverse
  | c :: cs, none =>
    if c = '<' then stripTagsAux cs (some ['<'])
    else c :: stripTagsAux cs none
  | c :: cs, some buf =>
    if c = '>' then
      if 2 ≤ buf.length then ' ' :: stripTagsAux cs none
      else buf.reverse ++ '>' :: stripTagsAux cs none
    else stripTagsAux cs (some (c :: buf))

/-- `re.sub(r"<[^>]+>", " ", text)`: replace each non-overlapping leftmost
match of a markup tag with one space (`nlp.clean_text`). -/
def stripTags (l : List Char) : List Char := stripTagsAux l none

/-! ## `nlp.py` -/

/-- `nlp.clean_text`: strip tags, collapse whitespace runs to single spaces,
trim; empty input gives the empty string. (The `isinstance(raw, str)` guard
is vacuous here because the argument is typed as a string.) -/
def clean_text (raw : String) : String :=
  if raw = "" then ""
  else String.intercalate " " (wsWords ⟨stripTags raw.data⟩)

example : clean_text "  Hello   <b>world</b> " = "Hello world" := by decide
example : clean_text "Hello world" = "Hello world" := by decide

/-- The fixed stopword list of the regex fallback branch of `nlp.get_tokens`. -/
def FALLBACK_STOPWORDS : List String :=
  ["the", "a", "an", "and", "or", "but", "in", "on", "at", "to",
   "for", "of", "is", "are", "was", "were"]

/-- `re.findall(r"\b[a-z0-9]{2,}\b", text.lower())`: maximal word-character
runs of the lowered text that contain no underscore (an adjacent `_` is a
word character, so the `\b` boundaries reject the run) and have length at
least 2. -/
def regexTokens (s : String) : List String :=
  ((splitRuns isWordChar (lowerStr s).data).filter
      (fun r => decide (2 ≤ r.length) && !(r.contains '_'))).map (fun r => ⟨r⟩)

/-- `nlp.get_tokens` in its documented regex fallback (NLTK unavailable):
clean, regex-tokenize the lowered text, optionally drop stopwords. -/
def get_tokens (text : String) (removeStopwords : Bool) : List String :=
  let t := clean_text text
  if t = "" then []
  else
    let tokens := regexTokens t
    if removeStopwords then tokens.filter (fun w => !(FALLBACK_STOPWORDS.contains w))
    else tokens

/-- `nlp.extract_ngrams`: n-grams as space-separated strings. -/
def extract_ngrams (tokens : List String) (n : ℕ) : List String :=
  if tokens.length < n then []
  else (List.range (tokens.length - n + 1)).map
    (fun i => String.intercalate " " ((tokens.drop i).take n))

/-- The `signal_words` set of `nlp.extract_key_phrases` (a Python set literal;
the duplicate "refinery" of the source literal collapses). -/
def SIGNAL_WORDS_KP : List String :=
  ["fuel", "cement", "marine", "bitumen", "tender", "supply", "contract",
   "expansion", "industrial", "road", "construction", "shipping", "vessel",
   "procurement", "refinery", "power", "aviation", "mining", "steel",
   "bunkering", "vessels", "bituminous", "asphalt", "petcoke", "furnace",
   "bunker", "maritime", "highway", "paving", "lube", "ore"]

/-- `score_phrase` of `nlp.extract_key_phrases`: how many distinct signal
words occur among the words of the phrase (`w in set(p.split())`). -/
def score_phrase (p : String) : ℕ :=
  let words := wsWords p
  (SIGNAL_WORDS_KP.filter (fun w => words.contains w)).length

/-- Stable insertion into a list sorted by descending score: the new element
goes after all elements of greater-or-equal score, mirroring the stability of
`list.sort(key=lambda x: -x[1])`. -/
def insertDesc (x : String × ℕ) : List (String × ℕ) → List (String × ℕ)
  | [] => [x]
  | y :: ys => if x.2 ≤ y.2 then y :: insertDesc x ys else x :: y :: ys

/-- Stable sort by descending score (any stable descending sort computes the
same list as Python's stable `sort`). -/
def sortByScoreDesc (l : List (String × ℕ)) : List (String × ℕ) :=
  l.foldl (fun acc x => insertDesc x acc) []

/-- Order-preserving deduplication (the `seen` set of the source loop). -/
def dedupKeepFirst (seen : List String) : List String → List String
  | [] => []
  | x :: xs =>
    if seen.contains x then dedupKeepFirst seen xs
    else x :: dedupKeepFirst (x :: seen) xs

/-- `nlp.extract_key_phrases`: 2-grams and 3-grams over the stopword-free
tokens, keeping only phrases containing at least one signal word, stably
sorted by descending signal-word count, deduplicated, truncated. -/
def extract_key_phrases (raw : String) (maxPhrases : ℕ) : List String :=
  let text := clean_text raw
  if text = "" then []
  else
    let tokens := get_tokens text true
    if tokens.length < 2 then []
    else
      let two := extract_ngrams tokens 2
      let three := extract_ngrams tokens 3
      let candidates :=
        ((two ++ three).filter (fun p => 0 < score_phrase p)).map
          (fun p => (p, score_phrase p))
      (dedupKeepFirst [] ((sortByScoreDesc candidates).map Prod.fst)).take maxPhrases

/-- `nlp.INTENT_SIGNALS_STRONG` (set literal, distinct members). -/
def INTENT_SIGNALS_STRONG : List String :=
  ["tender", "rfp", "rfi", "contract", "procurement", "bid", "order", "purchase"]

/-- `nlp.INTENT_SIGNALS_MEDIUM`. -/
def INTENT_SIGNALS_MEDIUM : List String :=
  ["expansion", "capacity", "new plant", "supply", "requirement", "fuel supply"]

/-- `nlp.INTENT_SIGNALS_WEAK`. -/
def INTENT_SIGNALS_WEAK : List String :=
  ["announce", "plan", "consider", "seek", "invite", "float"]

/-- Number of signals of a tier present as substrings of the text. -/
def countPresent (sigs : List String) (text : String) : ℕ :=
  (sigs.filter (fun w => strIn w text)).length

/-- `nlp.procurement_intent_score`: 25 per strong, 12 per medium, 5 per weak
signal present (each signal counted once), capped at 100. -/
def procurement_intent_score (raw : String) : ℕ :=
  let text := lowerStr (clean_text raw)
  if text = "" then 0
  else min 100 (25 * countPresent INTENT_SIGNALS_STRONG text
      + 12 * countPresent INTENT_SIGNALS_MEDIUM text
      + 5 * countPresent INTENT_SIGNALS_WEAK text)

/-- The synonym table of `nlp.expand_text_with_synonyms`, in the insertion
order of the source dict (dict iteration order is insertion order). -/
def SYNONYMS : List (String × String) :=
  [("marine", "maritime bunker vessel shipping"),
   ("fuel", "fuels petcoke furnace bunker"),
   ("bitumen", "bituminous asphalt paving"),
   ("cement", "clinker kiln"),
   ("tender", "tenders rfq rfp bid"),
   ("construction", "infrastructure highway road")]

/-- `nlp.expand_text_with_synonyms`: append the synonym group of every
canonical term present in the lowered text; unchanged when none matches. -/
def expand_text_with_synonyms (text : String) : String :=
  let lower := lowerStr text
  let extra := (SYNONYMS.filter (fun kv => strIn kv.1 lower)).map Prod.snd
  if extra.isEmpty then text
  else text ++ " " ++ String.intercalate " " extra

/-- `nlp.extract_entities`, modelled in its documented no-spaCy fallback: the
function returns the empty dict, so the organisation list is empty. -/
def extract_entities_orgs (_raw : String) : List String := []

/-- The fields of the `nlp.summarize_for_scoring` dict that the scoring path
reads (`key_phrases`, `entities.orgs`, `procurement_intent_score`; the
extractive `summary` string is not consulted by any verified claim). -/
structure NlpSummary where
  key_phrases : List String
  orgs : List String
  intent : ℕ
deriving Repr, DecidableEq

/-- `nlp.summarize_for_scoring`, restricted to the fields read by scoring. -/
def summarize_for_scoring (raw : String) : NlpSummary :=
  { key_phrases := extract_key_phrases raw 12
    orgs := extract_entities_orgs raw
    intent := procurement_intent_score raw }

/-! ## `extraction.py` -/

/-- `extraction.INDUSTRY_SIGNALS`, in source (dict insertion) order. -/
def INDUSTRY_SIGNALS : List (String × List String) :=
  [("Cement", ["cement", "clinker", "kiln", "grinding", "limestone"]),
   ("Marine", ["marine", "shipping", "vessel", "port", "bunker", "maritime"]),
   ("Construction / Roads",
    ["road", "highway", "bitumen", "asphalt", "paving", "construction", "infrastructure"]),
   ("Power / Utilities",
    ["power", "generation", "furnace", "boiler", "industrial fuel", "dg set"]),
   ("Refinery / Petrochemical",
    ["refinery", "petrochemical", "cracker", "lube", "specialty product"]),
   ("Mining / Steel", ["mining", "steel", "iron", "ore", "pellet"]),
   ("Aviation", ["aviation", "atf", "airport", "jet fuel"]),
   ("General Industrial",
    ["industrial", "manufacturing", "tender", "procurement", "supply"])]

/-- `extraction.PRODUCT_MAPPING`. -/
def PRODUCT_MAPPING : List (String × List String) :=
  [("Cement", ["Petcoke", "Furnace Oil", "Industrial Fuels"]),
   ("Marine", ["Marine Fuel", "LSHS", "Bunker"]),
   ("Construction / Roads", ["Bitumen", "VGB", "Paving Grade"]),
   ("Power / Utilities", ["Furnace Oil", "LSHS", "Industrial Fuels"]),
   ("Refinery / Petrochemical", ["Specialty Products", "Lubes", "Feedstocks"]),
   ("Mining / Steel", ["Industrial Fuels", "Furnace Oil", "Petcoke"]),
   ("Aviation", ["ATF", "Jet Fuel"]),
   ("General Industrial", ["Industrial Fuels", "Furnace Oil", "LSHS"])]

/-- `extraction.PROCUREMENT_SIGNALS`, in source order (scan order matters). -/
def PROCUREMENT_SIGNALS : List String :=
  ["tender", "rfp", "rfi", "contract", "procurement", "supply", "requirement",
   "expansion", "capacity", "new plant", "order", "bid", "purchase"]

/-- Association lookup mirroring Python `dict.get` over the static tables. -/
def alookup {α : Type} (k : String) : List (String × α) → Option α
  | [] => none
  | p :: ps => if p.1 = k then some p.2 else alookup k ps

/-- `sum(1 for kw in keywords if kw in text)`. -/
def countHits (text : String) (keywords : List String) : ℕ :=
  (keywords.filter (fun kw => strIn kw text)).length

/-- The procurement-signal clues of `extraction.extract_requirement_clues`. -/
def procCluesOf (text : String) : List String :=
  (PROCUREMENT_SIGNALS.filter (fun sig => strIn sig text)).map
    (fun sig => "Procurement signal: " ++ sig)

/-- The industry clues of `extraction.extract_requirement_clues`: at most one
clue per catalog vertical, for the first of its keywords present (the inner
loop breaks after the first hit). -/
def indCluesOf (text : String) : List String :=
  INDUSTRY_SIGNALS.filterMap (fun ik =>
    (ik.2.find? (fun kw => strIn kw text)).map
      (fun kw => "Industry signal: " ++ ik.1 ++ " (" ++ kw ++ ")"))

/-- The NLP key-phrase clues of `extraction.extract_requirement_clues`
(`max_phrases=6`; the fallback NLP path raises nothing, so the `except`
branch is dead). -/
def phraseCluesOf (raw : String) : List String :=
  (extract_key_phrases raw 6).map (fun p => "Phrase: " ++ p)

/-- `extraction.extract_requirement_clues`: the three clue groups in source
order, capped at 14 entries for display. -/
def extract_requirement_clues (raw : String) : List String :=
  let text := lowerStr (clean_text raw)
  ((procCluesOf text ++ indCluesOf text) ++ phraseCluesOf raw).take 14

/-- The specific verticals: every catalog entry except "General Industrial"
(`[k for k in INDUSTRY_SIGNALS if k != "General Industrial"]`). -/
def SPECIFIC : List (String × List String) :=
  INDUSTRY_SIGNALS.filter (fun ik => !(ik.1 == "General Industrial"))

/-- Keywords of the fallback "General Industrial" category. -/
def generalKeywords : List String :=
  (alookup "General Industrial" INDUSTRY_SIGNALS).getD []

/-- The matching text built by `extraction.detect_industry`: cleaned lowered
text, synonym-expanded, then the NLP key phrases (up to 10) appended. -/
def augmentedText (raw : String) : String :=
  let text := expand_text_with_synonyms (lowerStr (clean_text raw))
  text ++ " " ++ lowerStr (String.intercalate " " (extract_key_phrases raw 10))

/-- The best-so-far fold of `extraction.detect_industry`: update only on a
strictly greater keyword-hit count, starting from ("Unknown", 0). -/
def detectBest (text : String) : String × ℕ :=
  SPECIFIC.foldl
    (fun best ik =>
      if best.2 < countHits text ik.2 then (ik.1, countHits text ik.2) else best)
    ("Unknown", 0)

/-- The industry choice of `extraction.detect_industry` over a matching
text: the best-so-far fold result when it beat Unknown, else the General
Industrial fallback on any of its keyword hits, else Unknown. -/
def chooseIndustry (text : String) : String :=
  if (detectBest text).1 = "Unknown" then
    if 0 < countHits text generalKeywords then "General Industrial" else "Unknown"
  else (detectBest text).1

/-- The `best_industry` of `extraction.detect_industry`: the specific
vertical with the strictly greatest hit count (first wins ties), falling
back to General Industrial on any of its keyword hits, else Unknown — all
over the augmented matching text. -/
def bestIndustryOf (raw : String) : String := chooseIndustry (augmentedText raw)

/-- `extraction.detect_industry`: the chosen industry paired with the static
product lookup, whose default is `["Industrial Fuels"]`. -/
def detect_industry (raw : String) : String × List String :=
  (bestIndustryOf raw, (alookup (bestIndustryOf raw) PRODUCT_MAPPING).getD ["Industrial Fuels"])

example : (detect_industry "Hello world").1 = "Unknown" := by decide
example : (detect_industry "industrial, fuel").1 = "Power / Utilities" := by decide

/-! ## `scoring.py` -/

/-- A weight table: what `scoring._get_weights` builds from the
`scoring_weights` rows (a Python dict, i.e. a partial map from key to the
stored real, here an exact rational). -/
abbrev Weights : Type := String → Option ℚ

/-- `weights.get(key, 1.0)`: every missing weight defaults to 1. -/
def wget (w : Weights) (k : String) : ℚ := (w k).getD 1

/-- Python `int(x)` on a float: truncation toward zero. -/
def pyInt (q : ℚ) : ℤ := if 0 ≤ q then ⌊q⌋ else ⌈q⌉

/-- Python `round(x)` / `round(x, n)` rounding mode: round half to even. -/
def roundHalfEven (q : ℚ) : ℤ :=
  if Int.fract q < 1 / 2 then ⌊q⌋
  else if 1 / 2 < Int.fract q then ⌊q⌋ + 1
  else if ⌊q⌋ % 2 = 0 then ⌊q⌋ else ⌊q⌋ + 1

/-- Python `round(x, 2)`. -/
def round2 (q : ℚ) : ℚ := (roundHalfEven (q * 100) : ℚ) / 100

/-- `config.HIGH_PRIORITY_THRESHOLD` (default environment value). -/
def HIGH_PRIORITY_THRESHOLD : ℤ := 75

/-- `config.MEDIUM_PRIORITY_THRESHOLD` (default environment value). -/
def MEDIUM_PRIORITY_THRESHOLD : ℤ := 50

/-- `scoring._nlp_boost`: +3 for at least two key phrases, +2 for any
organisation entity, capped at 5. -/
def nlp_boost (s : NlpSummary) : ℤ :=
  min 5 ((if 2 ≤ s.key_phrases.length then (3 : ℤ) else 0)
    + (if s.orgs.isEmpty then 0 else 2))

/-- The result record of `scoring.analyze_and_score` (the extractive
`summary` string is not consulted by any verified claim and is omitted). -/
structure ScoreResult where
  industry : String
  product_recommendations : List String
  requirement_clues : List String
  score : ℤ
  confidence : ℤ
  priority : String
  intent_score : ℕ
deriving Repr, DecidableEq

/-- The procurement-signal bonus of `scoring.analyze_and_score`: the loop
scans `PROCUREMENT_SIGNALS` in order and breaks after the first signal found
in the lowered raw text, adding `int(15 * weights.get("signal_<sig>", 1.0))`. -/
def sigBonus (w : Weights) (text : String) : ℤ :=
  match PROCUREMENT_SIGNALS.find? (fun sig => strIn sig text) with
  | some sig => pyInt (15 * wget w ("signal_" ++ sig))
  | none => 0

/-- The expansion-trigger bonus: `int(25 * weights.get("signal_expansion", 1.0))`
when "expansion", "new plant" or "capacity" occurs in the lowered raw text. -/
def expBonus (w : Weights) (text : String) : ℤ :=
  if strIn "expansion" text || strIn "new plant" text || strIn "capacity" text then
    pyInt (25 * wget w "signal_expansion")
  else 0

/-- The tender-trigger bonus: `int(20 * weights.get("signal_tender", 1.0))`
when "tender", "rfp" or "contract" occurs in the lowered raw text. -/
def tenderBonus (w : Weights) (text : String) : ℤ :=
  if strIn "tender" text || strIn "rfp" text || strIn "contract" text then
    pyInt (20 * wget w "signal_tender")
  else 0

/-- The industry bonus: `int(30 * weights.get("industry_<vertical>", 1.0))`
when the detected industry is not Unknown (the weight is looked up either
way but used only inside the branch). -/
def indBonus (w : Weights) (industry : String) : ℤ :=
  if industry = "Unknown" then 0 else pyInt (30 * wget w ("industry_" ++ industry))

/-- The accumulated score of `scoring.analyze_and_score` before the final
clamp `min(100, score)`: procurement-signal bonus, expansion-trigger bonus,
tender-trigger bonus, industry bonus, NLP boost, and `int(intent_score / 10)`.
The keyword tests run over `raw_text.lower()` (the raw text is not cleaned
on this path, unlike industry detection and clue extraction). -/
def rawScore (w : Weights) (raw : String) : ℤ :=
  sigBonus w (lowerStr raw) + expBonus w (lowerStr raw) + tenderBonus w (lowerStr raw)
    + indBonus w (detect_industry raw).1
    + nlp_boost (summarize_for_scoring raw)
    + ((summarize_for_scoring raw).intent / 10 : ℕ)

/-- `scoring.analyze_and_score` for a string input: clamp the accumulated
score to 100, derive confidence as `min(95, score + 10)`, derive the
priority tier from the configured thresholds. -/
def analyze_and_score (w : Weights) (raw : String) : ScoreResult :=
  let ip := detect_industry raw
  let score := min 100 (rawScore w raw)
  { industry := ip.1
    product_recommendations := ip.2
    requirement_clues := extract_requirement_clues raw
    score := score
    confidence := min 95 (score + 10)
    priority :=
      if HIGH_PRIORITY_THRESHOLD ≤ score then "HIGH"
      else if MEDIUM_PRIORITY_THRESHOLD ≤ score then "MEDIUM"
      else "LOW"
    intent_score := (summarize_for_scoring raw).intent }

/-- `scoring.analyze_and_score` on an arbitrary (possibly non-string) raw
input, modelled as `Option String` with `none` for a non-string value: the
very first statement `raw_text.lower()` raises `AttributeError` on a
non-string, so the call produces no result record. -/
def analyze_and_score_opt (w : Weights) : Option String → Option ScoreResult
  | none => none
  | some s => some (analyze_and_score w s)

/-- The empty weight table (fresh system, or weight-store read failure). -/
def noWeights : Weights := fun _ => none

example : (analyze_and_score noWeights "Hello world").score = 0 := by decide
example : (analyze_and_score noWeights "expansion").score = 41 := by decide

/-! ## `feedback.py` -/

/-- One row of `db.get_feedback_for_weights()`: the lead's industry column
(possibly NULL) joined with the recorded outcome. The unused
`product_recommendations` column is omitted. -/
structure FeedbackRow where
  industry : Option String
  outcome : String
deriving Repr, DecidableEq

/-- `r.get("industry") or "Unknown"`: NULL and the empty string (both falsy)
become "Unknown". -/
def rowIndustry (r : FeedbackRow) : String :=
  match r.industry with
  | none => "Unknown"
  | some s => if s = "" then "Unknown" else s

/-- Append an outcome to its industry's group, preserving the first-insertion
order of keys (`defaultdict` over an insertion-ordered dict). -/
def addToGroup (k v : String) : List (String × List String) → List (String × List String)
  | [] => [(k, [v])]
  | g :: gs => if g.1 = k then (g.1, g.2 ++ [v]) :: gs else g :: addToGroup k v gs

/-- The `industry_outcomes` grouping of `feedback._update_weights_from_feedback`. -/
def groupOutcomes (rows : List FeedbackRow) : List (String × List String) :=
  rows.foldl (fun acc r => addToGroup (rowIndustry r) r.outcome acc) []

/-- The outcomes counted as accepted by the weight rule. -/
def ACCEPT_OUTCOMES : List String := ["Assigned", "Accepted", "Converted"]

/-- `accepted = sum(1 for o in outcomes if o in (...))`. -/
def countAccepted (outcomes : List String) : ℕ :=
  (outcomes.filter (fun o => ACCEPT_OUTCOMES.contains o)).length

/-- The weight computed for one feedback group:
`round(0.85 + 0.35 * accepted / total, 2)`. -/
def groupWeight (outcomes : List String) : ℚ :=
  round2 (85 / 100 + 35 / 100 * ((countAccepted outcomes : ℚ) / (outcomes.length : ℚ)))

/-- The weight store: the `scoring_weights` table keyed by
`industry_or_product` (UNIQUE), holding the stored rational weight. -/
abbrev Store : Type := List (String × ℚ)

/-- The `INSERT ... ON CONFLICT(industry_or_product) DO UPDATE` upsert:
replace the value at an existing key in place, else append a new row. -/
def upsert (k : String) (v : ℚ) : Store → Store
  | [] => [(k, v)]
  | p :: ps => if p.1 = k then (k, v) :: ps else p :: upsert k v ps

/-- The loop body of `feedback._update_weights_from_feedback`: skip an empty
group (`if total == 0: continue`), else upsert the recomputed weight under
the key `industry_<name>`. -/
def applyGroup (st : Store) (g : String × List String) : Store :=
  if g.2.length = 0 then st
  else upsert ("industry_" ++ g.1) (groupWeight g.2) st

/-- `feedback._update_weights_from_feedback` (with the DB available): group
the feedback rows by industry and upsert one recomputed weight per group. -/
def update_weights_from_feedback (rows : List FeedbackRow) (store : Store) : Store :=
  (groupOutcomes rows).foldl applyGroup store

example :
    update_weights_from_feedback
      [⟨some "Marine", "Converted"⟩, ⟨some "Marine", "Converted"⟩,
       ⟨some "Marine", "Converted"⟩, ⟨some "Marine", "Rejected"⟩] []
      = [("industry_Marine", 111 / 100)] := by decide

/-! ## Helper lemmas -/

theorem alookup_mem {α : Type} {k : String} {v : α} :
    ∀ {l : List (String × α)}, alookup k l = some v → (k, v) ∈ l := by
  intro l
  induction l with
  | nil => intro h; simp [alookup] at h
  | cons p ps ih =>
    intro h
    rw [alookup] at h
    split at h
    next heq =>
      obtain ⟨a, b⟩ := p
      have ha : a = k := heq
      injection h with hb
      subst ha hb
      exact List.mem_cons_self _ _
    next => exact List.mem_cons_of_mem _ (ih h)

/-- The products component of `detect_industry` is the static lookup with the
"Industrial Fuels" default, at the chosen industry. -/
theorem detect_industry_snd (raw : String) :
    (detect_industry raw).2
      = (alookup (detect_industry raw).1 PRODUCT_MAPPING).getD ["Industrial Fuels"] := by
  simp only [detect_industry]

/-! ## C7 -/

/-- C7: for every input text the classification's product list is non-empty:
an Unknown industry falls back to the default `["Industrial Fuels"]`, and the
static product lookup of every known vertical is non-empty. -/
theorem C7_products_nonempty (raw : String) :
    (detect_industry raw).2 ≠ [] ∧
    ((detect_industry raw).1 = "Unknown" → (detect_industry raw).2 = ["Industrial Fuels"]) := by
  constructor
  · rw [detect_industry_snd]
    cases h : alookup (detect_industry raw).1 PRODUCT_MAPPING with
    | none => simp
    | some v =>
      have hmem := alookup_mem h
      have hvals : ∀ p ∈ PRODUCT_MAPPING, p.2 ≠ ([] : List String) := by decide
      simpa using hvals _ hmem
  · intro hU
    rw [detect_industry_snd, hU]
    decide

/-- Witness for C7 at the empty input: the industry is Unknown and the
products are the non-empty fallback list. -/
theorem C7_witness :
    (detect_industry "").2 ≠ [] ∧ (detect_industry "").2 = ["Industrial Fuels"] :=
  ⟨(C7_products_nonempty "").1, (C7_products_nonempty "").2 (by decide)⟩

/-! ## C10 -/

/-- C10: clue extraction returns the procurement-signal clues, at most one
clue per industry vertical, and the NLP key-phrase clues, truncated to the
first 14 entries; in particular at most 14 clues are returned. -/
theorem C10_clue_cap (raw : String) :
    extract_requirement_clues raw
      = ((procCluesOf (lowerStr (clean_text raw)) ++ indCluesOf (lowerStr (clean_text raw)))
          ++ phraseCluesOf raw).take 14
    ∧ (extract_requirement_clues raw).length ≤ 14
    ∧ (indCluesOf (lowerStr (clean_text raw))).length ≤ INDUSTRY_SIGNALS.length := by
  refine ⟨rfl, ?_, ?_⟩
  · exact List.length_take_le 14 _
  · exact List.length_filterMap_le _ _

/-! ## C8 -/

/-- The all-defaults result record that an input with no keyword hits in any
tier produces. -/
def defaultResult : ScoreResult :=
  { industry := "Unknown"
    product_recommendations := ["Industrial Fuels"]
    requirement_clues := []
    score := 0
    confidence := 10
    priority := "LOW"
    intent_score := 0 }

/-- C8 counterexample: on a non-string raw input (modelled as `none`),
`analyze_and_score` raises `AttributeError` at `raw_text.lower()` instead of
returning the default record claimed. -/
theorem C8_counterexample :
    analyze_and_score_opt noWeights none = none ∧
    analyze_and_score_opt noWeights none ≠ some defaultResult := by
  exact ⟨rfl, by simp [analyze_and_score_opt]⟩

/-- C8 amended: for every weight table and every string input with no
keyword matches in any tier — no procurement signal, no expansion or tender
trigger, Unknown industry, fewer than two key phrases, intent below 10 —
`analyze_and_score` returns industry Unknown, score 0, confidence 10,
priority LOW and the non-empty fallback products, every branch contributing
its zero default instead of failing; a non-string input, by contrast,
raises (see the counterexample). -/
theorem C8_no_match_defaults (w : Weights) (raw : String)
    (hsig : PROCUREMENT_SIGNALS.find? (fun sig => strIn sig (lowerStr raw)) = none)
    (hexp : (strIn "expansion" (lowerStr raw) || strIn "new plant" (lowerStr raw)
        || strIn "capacity" (lowerStr raw)) = false)
    (hten : (strIn "tender" (lowerStr raw) || strIn "rfp" (lowerStr raw)
        || strIn "contract" (lowerStr raw)) = false)
    (hind : (detect_industry raw).1 = "Unknown")
    (hkp : (summarize_for_scoring raw).key_phrases.length < 2)
    (hint : (summarize_for_scoring raw).intent < 10) :
    (analyze_and_score w raw).industry = "Unknown"
    ∧ (analyze_and_score w raw).score = 0
    ∧ (analyze_and_score w raw).confidence = 10
    ∧ (analyze_and_score w raw).priority = "LOW"
    ∧ (analyze_and_score w raw).product_recommendations = ["Industrial Fuels"] := by
  have hraw : rawScore w raw = 0 := by
    have hs : sigBonus w (lowerStr raw) = 0 := by
      unfold sigBonus
      rw [hsig]
    have he : expBonus w (lowerStr raw) = 0 := by
      unfold expBonus
      rw [hexp]
      simp
    have ht : tenderBonus w (lowerStr raw) = 0 := by
      unfold tenderBonus
      rw [hten]
      simp
    have hi : indBonus w (detect_industry raw).1 = 0 := by
      unfold indBonus
      rw [if_pos hind]
    have hb : nlp_boost (summarize_for_scoring raw) = 0 := by
      unfold nlp_boost
      rw [if_neg (by omega : ¬(2 ≤ (summarize_for_scoring raw).key_phrases.length))]
      have ho : (summarize_for_scoring raw).orgs.isEmpty = true := rfl
      rw [ho]
      simp
    unfold rawScore
    rw [hs, he, ht, hi, hb, Nat.div_eq_of_lt hint]
    simp
  have hscore : (analyze_and_score w raw).score = 0 := by
    have h1 : (analyze_and_score w raw).score = min 100 (rawScore w raw) := by
      simp only [analyze_and_score]
    rw [h1, hraw]
    decide
  refine ⟨?_, hscore, ?_, ?_, ?_⟩
  · have h0 : (analyze_and_score w raw).industry = (detect_industry raw).1 := by
      simp only [analyze_and_score]
    rw [h0]
    exact hind
  · have h2 : (analyze_and_score w raw).confidence
        = min 95 (min 100 (rawScore w raw) + 10) := by
      simp only [analyze_and_score]
    rw [h2, hraw]
    decide
  · have h3 : (analyze_and_score w raw).priority
        = (if HIGH_PRIORITY_THRESHOLD ≤ min 100 (rawScore w raw) then "HIGH"
           else if MEDIUM_PRIORITY_THRESHOLD ≤ min 100 (rawScore w raw) then "MEDIUM"
           else "LOW") := by
      simp only [analyze_and_score]
    rw [h3, hraw]
    decide
  · have h4 : (analyze_and_score w raw).product_recommendations
        = (detect_industry raw).2 := by
      simp only [analyze_and_score]
    rw [h4, detect_industry_snd, hind]
    decide

/-- Witness for C8 at the no-match text "Hello world" and the empty weight
table. -/
theorem C8_witness :
    (analyze_and_score noWeights "Hello world").industry = "Unknown"
    ∧ (analyze_and_score noWeights "Hello world").score = 0
    ∧ (analyze_and_score noWeights "Hello world").confidence = 10
    ∧ (analyze_and_score noWeights "Hello world").priority = "LOW"
    ∧ (analyze_and_score noWeights "Hello world").product_recommendations
        = ["Industrial Fuels"] :=
  C8_no_match_defaults noWeights "Hello world" (by decide) (by decide) (by decide)
    (by decide) (by decide) (by decide)

/-! ## C1 -/

/-- Following the claim's words: the score formula in which every bonus is
the rounded — rather than truncated — product of its base and its weight
(Python `round`, half to even), with missing weights defaulting to 1.0. -/
def claimC1Score (w : Weights) (raw : String) : ℤ :=
  min 100
    ((match PROCUREMENT_SIGNALS.find? (fun sig => strIn sig (lowerStr raw)) with
      | some sig => roundHalfEven (15 * ((w ("signal_" ++ sig)).getD 1))
      | none => 0)
      + (if strIn "expansion" (lowerStr raw) || strIn "new plant" (lowerStr raw)
            || strIn "capacity" (lowerStr raw) then
          roundHalfEven (25 * ((w "signal_expansion").getD 1))
        else 0)
      + (if strIn "tender" (lowerStr raw) || strIn "rfp" (lowerStr raw)
            || strIn "contract" (lowerStr raw) then
          roundHalfEven (20 * ((w "signal_tender").getD 1))
        else 0)
      + (if (detect_industry raw).1 = "Unknown" then 0
         else roundHalfEven (30 * ((w ("industry_" ++ (detect_industry raw).1)).getD 1)))
      + nlp_boost (summarize_for_scoring raw)
      + ((summarize_for_scoring raw).intent / 10 : ℕ))

/-- The weight table `{"signal_expansion": 1.11}` — a value the feedback
loop can actually store (3 accepted, 1 rejected). -/
def w111 : Weights := fun k => if k = "signal_expansion" then some (111 / 100) else none

/-- C1 counterexample: with weight 1.11 on `signal_expansion`, the text
"expansion" scores `int(15 * 1.11) + int(25 * 1.11) + 1 = 16 + 27 + 1 = 44`,
while the claimed rounded bonuses give `17 + 28 + 1 = 46`: the code
truncates each bonus, it does not round it. -/
theorem C1_counterexample :
    (analyze_and_score w111 "expansion").score = 44 ∧
    claimC1Score w111 "expansion" = 46 ∧
    (analyze_and_score w111 "expansion").score ≠ claimC1Score w111 "expansion" := by
  refine ⟨by decide, by decide, by decide⟩

/-- C1 amended: each scoring bonus is the truncated (Python `int`) product of
its base and its weight — `int(15 * w)` for the first matching procurement
signal with no further procurement-list bonus, `int(25 * w)` for an
expansion trigger, `int(20 * w)` for a tender trigger, `int(30 * w)` for a
non-Unknown industry — with every missing weight defaulting to 1.0. -/
theorem C1_bonus_formulas (w : Weights) (raw : String) :
    (analyze_and_score w raw).score =
      min 100
        ((match PROCUREMENT_SIGNALS.find? (fun sig => strIn sig (lowerStr raw)) with
          | some sig => pyInt (15 * ((w ("signal_" ++ sig)).getD 1))
          | none => 0)
          + (if strIn "expansion" (lowerStr raw) || strIn "new plant" (lowerStr raw)
                || strIn "capacity" (lowerStr raw) then
              pyInt (25 * ((w "signal_expansion").getD 1))
            else 0)
          + (if strIn "tender" (lowerStr raw) || strIn "rfp" (lowerStr raw)
                || strIn "contract" (lowerStr raw) then
              pyInt (20 * ((w "signal_tender").getD 1))
            else 0)
          + (if (detect_industry raw).1 = "Unknown" then 0
             else pyInt (30 * ((w ("industry_" ++ (detect_industry raw).1)).getD 1)))
          + nlp_boost (summarize_for_scoring raw)
          + ((summarize_for_scoring raw).intent / 10 : ℕ)) := by
  have h1 : (analyze_and_score w raw).score = min 100 (rawScore w raw) := rfl
  rw [h1]
  simp only [rawScore, sigBonus, expBonus, tenderBonus, indBonus, wget]

/-! ## C2 -/

/-- The weight table `{"signal_expansion": -1.0}`. -/
def negWeights : Weights := fun k => if k = "signal_expansion" then some (-1) else none

/-- C2 counterexample: a negative stored weight drives the score below 0 —
`min(100, score)` clamps only from above — so `0 ≤ score` does not hold for
every weight table, and neither does the confidence lower bound. -/
theorem C2_counterexample :
    (analyze_and_score negWeights "expansion").score = -39 ∧
    (analyze_and_score negWeights "expansion").score < 0 := by
  refine ⟨by decide, by decide⟩

theorem wget_nonneg {w : Weights} (hw : ∀ k q, w k = some q → 0 ≤ q) (k : String) :
    0 ≤ wget w k := by
  unfold wget
  cases h : w k with
  | none => norm_num
  | some q => simpa using hw k q h

theorem pyInt_nonneg {q : ℚ} (h : 0 ≤ q) : 0 ≤ pyInt q := by
  unfold pyInt
  rw [if_pos h]
  exact Int.floor_nonneg.mpr h

theorem nlp_boost_nonneg (s : NlpSummary) : 0 ≤ nlp_boost s := by
  unfold nlp_boost
  split <;> split <;> decide

theorem rawScore_nonneg {w : Weights} (raw : String)
    (hw : ∀ k q, w k = some q → 0 ≤ q) : 0 ≤ rawScore w raw := by
  unfold rawScore
  have hsig : 0 ≤ sigBonus w (lowerStr raw) := by
    unfold sigBonus
    split
    · exact pyInt_nonneg (mul_nonneg (by norm_num) (wget_nonneg hw _))
    · exact le_refl 0
  have hexp : 0 ≤ expBonus w (lowerStr raw) := by
    unfold expBonus
    split
    · exact pyInt_nonneg (mul_nonneg (by norm_num) (wget_nonneg hw _))
    · exact le_refl 0
  have hten : 0 ≤ tenderBonus w (lowerStr raw) := by
    unfold tenderBonus
    split
    · exact pyInt_nonneg (mul_nonneg (by norm_num) (wget_nonneg hw _))
    · exact le_refl 0
  have hind : 0 ≤ indBonus w (detect_industry raw).1 := by
    unfold indBonus
    split
    · exact le_refl 0
    · exact pyInt_nonneg (mul_nonneg (by norm_num) (wget_nonneg hw _))
  have hboost := nlp_boost_nonneg (summarize_for_scoring raw)
  have hint : (0 : ℤ) ≤ ((summarize_for_scoring raw).intent / 10 : ℕ) := Int.ofNat_nonneg _
  exact add_nonneg (add_nonneg (add_nonneg (add_nonneg (add_nonneg hsig hexp) hten) hind)
    hboost) hint

/-- C2 amended: `score ≤ 100` and the derivation
`confidence = min(95, score + 10)` hold for every weight table; the lower
bound `0 ≤ score` holds provided every stored weight is nonnegative (a
negative stored weight can push the score below zero, see the
counterexample). -/
theorem C2_bounds (w : Weights) (raw : String) :
    ((∀ k q, w k = some q → 0 ≤ q) → 0 ≤ (analyze_and_score w raw).score)
    ∧ (analyze_and_score w raw).score ≤ 100
    ∧ (analyze_and_score w raw).confidence
        = min 95 ((analyze_and_score w raw).score + 10) := by
  refine ⟨?_, ?_, rfl⟩
  · intro hw
    have h := rawScore_nonneg raw hw
    have : (analyze_and_score w raw).score = min 100 (rawScore w raw) := rfl
    rw [this]
    exact le_min (by norm_num) h
  · have : (analyze_and_score w raw).score = min 100 (rawScore w raw) := rfl
    rw [this]
    exact min_le_left _ _

/-- Witness for C2 at the empty weight table and the text "expansion". -/
theorem C2_witness :
    (0 ≤ (analyze_and_score noWeights "expansion").score)
    ∧ (analyze_and_score noWeights "expansion").score ≤ 100
    ∧ (analyze_and_score noWeights "expansion").confidence
        = min 95 ((analyze_and_score noWeights "expansion").score + 10) :=
  ⟨(C2_bounds noWeights "expansion").1 (fun _ _ h => nomatch h),
   (C2_bounds noWeights "expansion").2.1,
   (C2_bounds noWeights "expansion").2.2⟩

/-! ## C5 -/

theorem pyInt_mono {a b : ℚ} (h : a ≤ b) : pyInt a ≤ pyInt b := by
  unfold pyInt
  by_cases ha : 0 ≤ a
  · rw [if_pos ha, if_pos (le_trans ha h)]
    exact Int.floor_le_floor h
  · by_cases hb : 0 ≤ b
    · rw [if_neg ha, if_pos hb]
      refine le_trans (Int.ceil_le.mpr ?_) (Int.floor_nonneg.mpr hb)
      exact_mod_cast le_of_lt (not_le.mp ha)
    · rw [if_neg ha, if_neg hb]
      exact Int.ceil_le_ceil h

theorem sigBonus_mono {w1 w2 : Weights} (h : ∀ k, wget w1 k ≤ wget w2 k) (text : String) :
    sigBonus w1 text ≤ sigBonus w2 text := by
  unfold sigBonus
  cases PROCUREMENT_SIGNALS.find? (fun sig => strIn sig text) with
  | none => exact le_refl 0
  | some sig => exact pyInt_mono (mul_le_mul_of_nonneg_left (h _) (by norm_num))

theorem expBonus_mono {w1 w2 : Weights} (h : ∀ k, wget w1 k ≤ wget w2 k) (text : String) :
    expBonus w1 text ≤ expBonus w2 text := by
  unfold expBonus
  split
  · exact pyInt_mono (mul_le_mul_of_nonneg_left (h _) (by norm_num))
  · exact le_refl 0

theorem tenderBonus_mono {w1 w2 : Weights} (h : ∀ k, wget w1 k ≤ wget w2 k) (text : String) :
    tenderBonus w1 text ≤ tenderBonus w2 text := by
  unfold tenderBonus
  split
  · exact pyInt_mono (mul_le_mul_of_nonneg_left (h _) (by norm_num))
  · exact le_refl 0

theorem indBonus_mono {w1 w2 : Weights} (h : ∀ k, wget w1 k ≤ wget w2 k) (industry : String) :
    indBonus w1 industry ≤ indBonus w2 industry := by
  unfold indBonus
  split
  · exact le_refl 0
  · exact pyInt_mono (mul_le_mul_of_nonneg_left (h _) (by norm_num))

theorem rawScore_mono (w1 w2 : Weights) (raw : String)
    (h : ∀ k, wget w1 k ≤ wget w2 k) : rawScore w1 raw ≤ rawScore w2 raw := by
  unfold rawScore
  exact add_le_add (add_le_add (add_le_add (add_le_add (add_le_add
    (sigBonus_mono h _) (expBonus_mono h _)) (tenderBonus_mono h _))
    (indBonus_mono h _)) (le_refl _)) (le_refl _)

/-- The weight keys whose bonuses actually fire for a given raw text: the
first matching procurement signal's key, the expansion and tender trigger
keys when triggered, and the industry key when the detected industry is not
Unknown (an inventory of the lookups `analyze_and_score` consumes). -/
def matchedKeys (raw : String) : List String :=
  (match PROCUREMENT_SIGNALS.find? (fun sig => strIn sig (lowerStr raw)) with
   | some sig => ["signal_" ++ sig]
   | none => [])
  ++ (if strIn "expansion" (lowerStr raw) || strIn "new plant" (lowerStr raw)
        || strIn "capacity" (lowerStr raw) then ["signal_expansion"] else [])
  ++ (if strIn "tender" (lowerStr raw) || strIn "rfp" (lowerStr raw)
        || strIn "contract" (lowerStr raw) then ["signal_tender"] else [])
  ++ (if (detect_industry raw).1 = "Unknown" then []
      else ["industry_" ++ (detect_industry raw).1])

/-- C5: replacing the weight of a matched key by any larger value, holding
the text and all other weights fixed, never decreases the accumulated score
before the final clamp to 100. -/
theorem C5_monotone (raw : String) (w1 w2 : Weights) (k : String)
    (_hmatch : k ∈ matchedKeys raw)
    (hoff : ∀ k2, k2 ≠ k → w1 k2 = w2 k2)
    (hk : wget w1 k ≤ wget w2 k) :
    rawScore w1 raw ≤ rawScore w2 raw := by
  have h : ∀ key, wget w1 key ≤ wget w2 key := by
    intro key
    by_cases hkey : key = k
    · rw [hkey]
      exact hk
    · unfold wget
      rw [hoff key hkey]
  exact rawScore_mono w1 w2 raw h

/-- The weight table `{"signal_expansion": 2.0}`. -/
def doubleExpansion : Weights := fun k => if k = "signal_expansion" then some 2 else none

/-- Witness for C5: raising the matched key `signal_expansion` from its
default 1.0 to 2.0 on the text "expansion". -/
theorem C5_witness :
    "signal_expansion" ∈ matchedKeys "expansion"
    ∧ wget noWeights "signal_expansion" ≤ wget doubleExpansion "signal_expansion"
    ∧ rawScore noWeights "expansion" ≤ rawScore doubleExpansion "expansion" := by
  refine ⟨by decide, by decide,
    C5_monotone "expansion" noWeights doubleExpansion "signal_expansion"
      (by decide) ?_ (by decide)⟩
  intro k2 h2
  simp [noWeights, doubleExpansion, h2]

/-! ## C9 -/

theorem foldBest_fst_mem (text : String) :
    ∀ (L : List (String × List String)) (init : String × ℕ),
      (L.foldl
        (fun best ik =>
          if best.2 < countHits text ik.2 then (ik.1, countHits text ik.2) else best)
        init).1 ∈ init.1 :: L.map Prod.fst := by
  intro L
  induction L with
  | nil => intro init; simp
  | cons x xs ih =>
    intro init
    simp only [List.foldl_cons, List.map_cons]
    by_cases hx : init.2 < countHits text x.2
    · rw [if_pos hx]
      have h := ih (x.1, countHits text x.2)
      simp only [List.mem_cons] at h ⊢
      tauto
    · rw [if_neg hx]
      have h := ih init
      simp only [List.mem_cons] at h ⊢
      tauto

/-- Every industry `detect_industry` can choose: Unknown, the fallback
category, or one of the specific catalog verticals. -/
def INDUSTRY_NAMES : List String :=
  "Unknown" :: "General Industrial" :: SPECIFIC.map Prod.fst

theorem detect_industry_fst (raw : String) :
    (detect_industry raw).1 = bestIndustryOf raw := by
  simp only [detect_industry]

theorem detectBest_fst_mem (text : String) :
    (detectBest text).1 ∈ "Unknown" :: SPECIFIC.map Prod.fst := by
  unfold detectBest
  exact foldBest_fst_mem text SPECIFIC ("Unknown", 0)

theorem chooseIndustry_mem (text : String) : chooseIndustry text ∈ INDUSTRY_NAMES := by
  unfold chooseIndustry
  by_cases hb : (detectBest text).1 = "Unknown"
  · rw [if_pos hb]
    by_cases hg : 0 < countHits text generalKeywords
    · rw [if_pos hg]
      simp [INDUSTRY_NAMES]
    · rw [if_neg hg]
      simp [INDUSTRY_NAMES]
  · rw [if_neg hb]
    have h := detectBest_fst_mem text
    simp only [INDUSTRY_NAMES, List.mem_cons] at h ⊢
    tauto

theorem bestIndustryOf_mem (raw : String) : bestIndustryOf raw ∈ INDUSTRY_NAMES :=
  chooseIndustry_mem (augmentedText raw)

theorem sigBonus_congr {w1 w2 : Weights} (text : String)
    (h : ∀ k, k ≠ "industry_Unknown" → w1 k = w2 k) :
    sigBonus w1 text = sigBonus w2 text := by
  unfold sigBonus
  cases hf : PROCUREMENT_SIGNALS.find? (fun sig => strIn sig text) with
  | none => rfl
  | some sig =>
    have hmem := List.mem_of_find?_eq_some hf
    have hne : ∀ s ∈ PROCUREMENT_SIGNALS, "signal_" ++ s ≠ "industry_Unknown" := by decide
    simp only [wget, h _ (hne sig hmem)]

theorem expBonus_congr {w1 w2 : Weights} (text : String)
    (h : ∀ k, k ≠ "industry_Unknown" → w1 k = w2 k) :
    expBonus w1 text = expBonus w2 text := by
  unfold expBonus
  split
  · simp only [wget, h "signal_expansion" (by decide)]
  · rfl

theorem tenderBonus_congr {w1 w2 : Weights} (text : String)
    (h : ∀ k, k ≠ "industry_Unknown" → w1 k = w2 k) :
    tenderBonus w1 text = tenderBonus w2 text := by
  unfold tenderBonus
  split
  · simp only [wget, h "signal_tender" (by decide)]
  · rfl

theorem indBonus_congr {w1 w2 : Weights} {industry : String}
    (hind : industry ∈ INDUSTRY_NAMES)
    (h : ∀ k, k ≠ "industry_Unknown" → w1 k = w2 k) :
    indBonus w1 industry = indBonus w2 industry := by
  unfold indBonus
  split
  · rfl
  next hne =>
    have hkey : "industry_" ++ industry ≠ "industry_Unknown" := by
      have hall : ∀ n ∈ INDUSTRY_NAMES, n ≠ "Unknown" →
          "industry_" ++ n ≠ "industry_Unknown" := by decide
      exact hall industry hind hne
    simp only [wget, h _ hkey]

/-- C9: a weight stored under `industry_Unknown` never influences the result:
two weight tables that differ only at that key score every text identically,
because the industry bonus is added only for a non-Unknown industry. -/
theorem C9_unknown_noninterference (w1 w2 : Weights) (raw : String)
    (h : ∀ k, k ≠ "industry_Unknown" → w1 k = w2 k) :
    analyze_and_score w1 raw = analyze_and_score w2 raw := by
  have hraw : rawScore w1 raw = rawScore w2 raw := by
    unfold rawScore
    rw [sigBonus_congr (lowerStr raw) h, expBonus_congr (lowerStr raw) h,
      tenderBonus_congr (lowerStr raw) h,
      indBonus_congr (by rw [detect_industry_fst]; exact bestIndustryOf_mem raw) h]
  simp only [analyze_and_score, hraw]

/-- The weight table `{"industry_Unknown": 5.0}`. -/
def unknownIndWeights : Weights :=
  fun k => if k = "industry_Unknown" then some 5 else none

/-- Witness for C9: the tables `{"industry_Unknown": 5.0}` and `{}` produce
the same result on the text "expansion". -/
theorem C9_witness :
    analyze_and_score unknownIndWeights "expansion"
      = analyze_and_score noWeights "expansion" :=
  C9_unknown_noninterference unknownIndWeights noWeights "expansion"
    (fun k hk => by simp [unknownIndWeights, noWeights, hk])

/-! ## Store and grouping lemmas for C4 and C6 -/

theorem strData_append (a b : String) : (a ++ b).data = a.data ++ b.data := by
  cases a
  cases b
  rfl

theorem strAppend_left_cancel {p a b : String} (h : p ++ a = p ++ b) : a = b := by
  have hd : p.data ++ a.data = p.data ++ b.data := by
    rw [← strData_append, ← strData_append, h]
  have hab : a.data = b.data := List.append_cancel_left hd
  cases a
  cases b
  exact congrArg String.mk hab

theorem alookup_upsert_self (k : String) (v : ℚ) :
    ∀ st : Store, alookup k (upsert k v st) = some v := by
  intro st
  induction st with
  | nil => simp [upsert, alookup]
  | cons p ps ih =>
    by_cases hp : p.1 = k
    · simp [upsert, hp, alookup]
    · simp [upsert, hp, alookup, ih]

theorem alookup_upsert_ne {k k2 : String} (hne : k2 ≠ k) (v : ℚ) :
    ∀ st : Store, alookup k (upsert k2 v st) = alookup k st := by
  intro st
  induction st with
  | nil => simp [upsert, alookup, hne]
  | cons p ps ih =>
    by_cases hp : p.1 = k2
    · have hpk : p.1 ≠ k := by rw [hp]; exact hne
      simp [upsert, hp, alookup, hne, hpk]
    · by_cases hpk : p.1 = k
      · have hkk2 : ¬(k = k2) := fun hc => hne hc.symm
        simp [upsert, hp, alookup, hpk, hkk2]
      · simp [upsert, hp, alookup, hpk, ih]

theorem upsert_eq_of_lookup {k : String} {v : ℚ} :
    ∀ {st : Store}, alookup k st = some v → upsert k v st = st := by
  intro st
  induction st with
  | nil => intro h; simp [alookup] at h
  | cons p ps ih =>
    intro h
    obtain ⟨a, b⟩ := p
    rw [upsert]
    split
    next heq =>
      have ha : a = k := heq
      have hv : b = v := by
        rw [alookup] at h
        rw [if_pos heq] at h
        exact Option.some.inj h
      subst ha
      subst hv
      rfl
    next hne =>
      have hne2 : ¬(a = k) := hne
      rw [alookup, if_neg hne2] at h
      rw [ih h]

theorem upsert_fst_mem (k : String) (v : ℚ) :
    ∀ (st : Store) (x : String),
      x ∈ (upsert k v st).map Prod.fst ↔ x ∈ st.map Prod.fst ∨ x = k := by
  intro st
  induction st with
  | nil => intro x; simp [upsert]
  | cons p ps ih =>
    intro x
    by_cases hp : p.1 = k
    · simp only [upsert, if_pos hp, List.map_cons, List.mem_cons]
      rw [hp]
      tauto
    · simp only [upsert, if_neg hp, List.map_cons, List.mem_cons, ih]
      tauto

theorem upsert_keys_nodup (k : String) (v : ℚ) :
    ∀ {st : Store}, (st.map Prod.fst).Nodup → ((upsert k v st).map Prod.fst).Nodup := by
  intro st
  induction st with
  | nil => intro _; simp [upsert]
  | cons p ps ih =>
    intro h
    simp only [List.map_cons, List.nodup_cons] at h
    obtain ⟨h1, h2⟩ := h
    by_cases hp : p.1 = k
    · simp only [upsert, if_pos hp, List.map_cons, List.nodup_cons]
      exact ⟨hp ▸ h1, h2⟩
    · simp only [upsert, if_neg hp, List.map_cons, List.nodup_cons]
      refine ⟨?_, ih h2⟩
      rw [upsert_fst_mem]
      rintro (hmem | hk)
      · exact h1 hmem
      · exact hp hk

theorem addToGroup_fst_mem (k v : String) :
    ∀ (l : List (String × List String)) (x : String),
      x ∈ (addToGroup k v l).map Prod.fst ↔ x ∈ l.map Prod.fst ∨ x = k := by
  intro l
  induction l with
  | nil => intro x; simp [addToGroup]
  | cons g gs ih =>
    intro x
    by_cases hg : g.1 = k
    · simp only [addToGroup, if_pos hg, List.map_cons, List.mem_cons]
      rw [hg]
      tauto
    · simp only [addToGroup, if_neg hg, List.map_cons, List.mem_cons, ih]
      tauto

theorem addToGroup_keys_nodup (k v : String) :
    ∀ {l : List (String × List String)}, (l.map Prod.fst).Nodup →
      ((addToGroup k v l).map Prod.fst).Nodup := by
  intro l
  induction l with
  | nil => intro _; simp [addToGroup]
  | cons g gs ih =>
    intro h
    simp only [List.map_cons, List.nodup_cons] at h
    obtain ⟨h1, h2⟩ := h
    by_cases hg : g.1 = k
    · simp only [addToGroup, if_pos hg, List.map_cons, List.nodup_cons]
      exact ⟨h1, h2⟩
    · simp only [addToGroup, if_neg hg, List.map_cons, List.nodup_cons]
      refine ⟨?_, ih h2⟩
      rw [addToGroup_fst_mem]
      rintro (hmem | hk)
      · exact h1 hmem
      · exact hg hk

theorem groupOutcomes_aux_nodup (rows : List FeedbackRow) :
    ∀ acc : List (String × List String), (acc.map Prod.fst).Nodup →
      ((rows.foldl (fun a r => addToGroup (rowIndustry r) r.outcome a) acc).map
        Prod.fst).Nodup := by
  induction rows with
  | nil => intro acc h; simpa using h
  | cons r rs ih => intro acc h; exact ih _ (addToGroup_keys_nodup _ _ h)

theorem groupOutcomes_keys_nodup (rows : List FeedbackRow) :
    ((groupOutcomes rows).map Prod.fst).Nodup :=
  groupOutcomes_aux_nodup rows [] (by simp)

theorem addToGroup_vals_ne_nil (k v : String) :
    ∀ {l : List (String × List String)}, (∀ g ∈ l, g.2 ≠ ([] : List String)) →
      ∀ g ∈ addToGroup k v l, g.2 ≠ [] := by
  intro l
  induction l with
  | nil =>
    intro _ g hg
    simp only [addToGroup, List.mem_singleton] at hg
    subst hg
    simp
  | cons g0 gs ih =>
    intro h g hg
    by_cases h0 : g0.1 = k
    · simp only [addToGroup, if_pos h0, List.mem_cons] at hg
      rcases hg with hg | hg
      · subst hg; simp
      · exact h g (List.mem_cons_of_mem _ hg)
    · simp only [addToGroup, if_neg h0, List.mem_cons] at hg
      rcases hg with hg | hg
      · subst hg; exact h g (List.mem_cons_self _ _)
      · exact ih (fun g2 hg2 => h g2 (List.mem_cons_of_mem _ hg2)) g hg

theorem groupOutcomes_aux_ne_nil (rows : List FeedbackRow) :
    ∀ acc : List (String × List String), (∀ g ∈ acc, g.2 ≠ ([] : List String)) →
      ∀ g ∈ rows.foldl (fun a r => addToGroup (rowIndustry r) r.outcome a) acc,
        g.2 ≠ [] := by
  induction rows with
  | nil => intro acc h; simpa using h
  | cons r rs ih => intro acc h; exact ih _ (addToGroup_vals_ne_nil _ _ h)

theorem groupOutcomes_vals_ne_nil (rows : List FeedbackRow) :
    ∀ g ∈ groupOutcomes rows, g.2 ≠ [] :=
  groupOutcomes_aux_ne_nil rows [] (by simp)

theorem foldGroups_lookup_other {k : String} :
    ∀ (gs : List (String × List String)) (st : Store),
      (∀ g ∈ gs, "industry_" ++ g.1 ≠ k) →
      alookup k (gs.foldl applyGroup st) = alookup k st := by
  intro gs
  induction gs with
  | nil => intro st _; rfl
  | cons g gs ih =>
    intro st h
    rw [List.foldl_cons, ih _ (fun g2 hg2 => h g2 (List.mem_cons_of_mem _ hg2))]
    unfold applyGroup
    split
    · rfl
    · exact alookup_upsert_ne (h g (List.mem_cons_self _ _)) _ st

theorem foldGroups_lookup_found :
    ∀ (gs : List (String × List String)) (st : Store) (g : String × List String),
      g ∈ gs → (gs.map Prod.fst).Nodup → (∀ g2 ∈ gs, g2.2 ≠ ([] : List String)) →
      alookup ("industry_" ++ g.1) (gs.foldl applyGroup st) = some (groupWeight g.2) := by
  intro gs
  induction gs with
  | nil => intro st g hg; simp at hg
  | cons g0 gs ih =>
    intro st g hg hnodup hne
    simp only [List.map_cons, List.nodup_cons] at hnodup
    obtain ⟨h0, hnd⟩ := hnodup
    rw [List.foldl_cons]
    rcases List.mem_cons.mp hg with rfl | hmem
    · have hother : ∀ g2 ∈ gs, "industry_" ++ g2.1 ≠ "industry_" ++ g.1 := by
        intro g2 hg2 hc
        have hcc : g2.1 = g.1 := strAppend_left_cancel hc
        exact h0 (hcc ▸ List.mem_map_of_mem Prod.fst hg2)
      rw [foldGroups_lookup_other gs _ hother]
      have hlen : ¬(g.2.length = 0) := fun hc =>
        hne g (List.mem_cons_self _ _) (List.length_eq_zero.mp hc)
      unfold applyGroup
      rw [if_neg hlen]
      exact alookup_upsert_self _ _ _
    · exact ih (applyGroup st g0) g hmem hnd
        (fun g2 hg2 => hne g2 (List.mem_cons_of_mem _ hg2))

theorem foldGroups_keys_nodup :
    ∀ (gs : List (String × List String)) (st : Store),
      (st.map Prod.fst).Nodup → ((gs.foldl applyGroup st).map Prod.fst).Nodup := by
  intro gs
  induction gs with
  | nil => intro st h; simpa using h
  | cons g gs ih =>
    intro st h
    rw [List.foldl_cons]
    refine ih _ ?_
    unfold applyGroup
    split
    · exact h
    · exact upsert_keys_nodup _ _ h

theorem foldGroups_noop :
    ∀ (gs : List (String × List String)) (st : Store),
      (∀ g ∈ gs, alookup ("industry_" ++ g.1) st = some (groupWeight g.2)) →
      gs.foldl applyGroup st = st := by
  intro gs
  induction gs with
  | nil => intro st _; rfl
  | cons g gs ih =>
    intro st h
    rw [List.foldl_cons]
    have hst : applyGroup st g = st := by
      unfold applyGroup
      split
      · rfl
      · exact upsert_eq_of_lookup (h g (List.mem_cons_self _ _))
    rw [hst]
    exact ih st (fun g2 hg2 => h g2 (List.mem_cons_of_mem _ hg2))

/-! ## C4 -/

/-- C4: for every feedback set and initial store, every non-empty industry
group ends up stored under `industry_<name>` with weight
`round(0.85 + 0.35 * accepted/total, 2)`, where accepted counts outcomes in
{Assigned, Accepted, Converted}. -/
theorem C4_group_weight (rows : List FeedbackRow) (store : Store)
    (g : String × List String) (hg : g ∈ groupOutcomes rows)
    (_hpos : 0 < g.2.length) :
    alookup ("industry_" ++ g.1) (update_weights_from_feedback rows store)
      = some (round2 (85 / 100
          + 35 / 100 * ((countAccepted g.2 : ℚ) / (g.2.length : ℚ)))) :=
  foldGroups_lookup_found (groupOutcomes rows) store g hg
    (groupOutcomes_keys_nodup rows) (groupOutcomes_vals_ne_nil rows)

/-- The Marine scenario: three Converted and one Rejected feedback events. -/
def marineRows : List FeedbackRow :=
  [⟨some "Marine", "Converted"⟩, ⟨some "Marine", "Converted"⟩,
   ⟨some "Marine", "Converted"⟩, ⟨some "Marine", "Rejected"⟩]

/-- Witness for C4: the Marine group of 3 Converted + 1 Rejected stores
weight 1.11 under `industry_Marine`. -/
theorem C4_witness :
    ("Marine", ["Converted", "Converted", "Converted", "Rejected"])
        ∈ groupOutcomes marineRows
    ∧ alookup "industry_Marine" (update_weights_from_feedback marineRows [])
        = some (111 / 100) := by
  refine ⟨by decide, ?_⟩
  have h := C4_group_weight marineRows []
    ("Marine", ["Converted", "Converted", "Converted", "Rejected"])
    (by decide) (by decide)
  have h2 : round2 (85 / 100
      + 35 / 100 * ((countAccepted ["Converted", "Converted", "Converted", "Rejected"] : ℚ)
          / ((["Converted", "Converted", "Converted", "Rejected"] : List String).length : ℚ)))
      = 111 / 100 := by decide
  rw [h2] at h
  exact h

/-! ## C6 -/

/-- C6: recomputing weights twice from the same feedback set leaves the
store identical to one recomputation, and key uniqueness is preserved. -/
theorem C6_idempotent (rows : List FeedbackRow) (store : Store)
    (h : (store.map Prod.fst).Nodup) :
    ((update_weights_from_feedback rows store).map Prod.fst).Nodup ∧
    update_weights_from_feedback rows (update_weights_from_feedback rows store)
      = update_weights_from_feedback rows store := by
  constructor
  · exact foldGroups_keys_nodup (groupOutcomes rows) store h
  · show (groupOutcomes rows).foldl applyGroup (update_weights_from_feedback rows store)
      = update_weights_from_feedback rows store
    apply foldGroups_noop
    intro g hg
    exact foldGroups_lookup_found (groupOutcomes rows) store g hg
      (groupOutcomes_keys_nodup rows) (groupOutcomes_vals_ne_nil rows)

/-- Witness for C6 on the Marine feedback set over a store already holding
an `industry_Marine` record. -/
theorem C6_witness :
    ((update_weights_from_feedback marineRows [("industry_Marine", 2)]).map
        Prod.fst).Nodup ∧
    update_weights_from_feedback marineRows
        (update_weights_from_feedback marineRows [("industry_Marine", 2)])
      = update_weights_from_feedback marineRows [("industry_Marine", 2)] :=
  C6_idempotent marineRows [("industry_Marine", 2)] (by decide)

/-! ## C3 -/

/-- The greatest keyword-hit count over the specific verticals. -/
def maxSpecificHits (text : String) : ℕ :=
  (SPECIFIC.map (fun ik => countHits text ik.2)).foldr max 0

/-- Following the claim's words: return the specific vertical with the
strictly greatest keyword-hit count over the given matching text, ties
broken by first position in catalog iteration order; when the best specific
count is zero, General Industrial if any of its keywords is present,
else Unknown. -/
def claimClassify (text : String) : String :=
  if maxSpecificHits text = 0 then
    if 0 < countHits text generalKeywords then "General Industrial" else "Unknown"
  else
    match SPECIFIC.find? (fun ik => countHits text ik.2 = maxSpecificHits text) with
    | some ik => ik.1
    | none => "Unknown"

theorem listMax_attained (f : String × List String → ℕ) :
    ∀ L : List (String × List String),
      (L.map f).foldr max 0 = 0 ∨ ∃ x ∈ L, f x = (L.map f).foldr max 0 := by
  intro L
  induction L with
  | nil => left; rfl
  | cons x xs ih =>
    simp only [List.map_cons, List.foldr_cons]
    rcases Nat.le_total ((xs.map f).foldr max 0) (f x) with hle | hle
    · right
      exact ⟨x, List.mem_cons_self _ _, (Nat.max_eq_left hle).symm⟩
    · rcases ih with h0 | ⟨y, hy, hfy⟩
      · left
        rw [h0]
        have hx0 : f x = 0 := Nat.le_zero.mp (h0 ▸ hle)
        rw [hx0]
        simp
      · right
        refine ⟨y, List.mem_cons_of_mem _ hy, ?_⟩
        rw [Nat.max_eq_right hle]
        exact hfy

theorem foldArgmax (f : String × List String → ℕ) :
    ∀ (L : List (String × List String)) (init : String × ℕ),
      L.foldl (fun best ik => if best.2 < f ik then (ik.1, f ik) else best) init
        = if (L.map f).foldr max 0 ≤ init.2 then init
          else
            match L.find? (fun ik => f ik = (L.map f).foldr max 0) with
            | some ik => (ik.1, f ik)
            | none => init := by
  intro L
  induction L with
  | nil =>
    intro init
    simp
  | cons x xs ih =>
    intro init
    rw [List.foldl_cons]
    by_cases hx : init.2 < f x
    · rw [if_pos hx, ih (x.1, f x)]
      by_cases hm : (xs.map f).foldr max 0 ≤ f x
      · rw [if_pos hm]
        have hM : ((x :: xs).map f).foldr max 0 = f x := by
          simp only [List.map_cons, List.foldr_cons]
          exact Nat.max_eq_left hm
        rw [hM, if_neg (Nat.not_le.mpr hx), List.find?_cons_of_pos _ (by simp)]
      · have hlt := Nat.lt_of_not_le hm
        rw [if_neg hm]
        rcases listMax_attained f xs with h0 | ⟨y, hy, hfy⟩
        · exact absurd (h0 ▸ hlt) (Nat.not_lt_zero _)
        · cases hfind : xs.find? (fun ik => f ik = (xs.map f).foldr max 0) with
          | none =>
            have := List.find?_eq_none.mp hfind y hy
            simp [hfy] at this
          | some z =>
            have hM : ((x :: xs).map f).foldr max 0 = (xs.map f).foldr max 0 := by
              simp only [List.map_cons, List.foldr_cons]
              exact Nat.max_eq_right (Nat.le_of_lt hlt)
            rw [hM, if_neg (by omega : ¬((xs.map f).foldr max 0 ≤ init.2))]
            rw [List.find?_cons_of_neg _ (by simp; omega), hfind]
    · rw [if_neg hx, ih init]
      have hxle : f x ≤ init.2 := Nat.le_of_not_lt hx
      by_cases hm : (xs.map f).foldr max 0 ≤ init.2
      · rw [if_pos hm]
        have hle2 : ((x :: xs).map f).foldr max 0 ≤ init.2 := by
          simp only [List.map_cons, List.foldr_cons]
          exact Nat.max_le.mpr ⟨hxle, hm⟩
        rw [if_pos hle2]
      · rw [if_neg hm]
        have hlt := Nat.lt_of_not_le hm
        have hM : ((x :: xs).map f).foldr max 0 = (xs.map f).foldr max 0 := by
          simp only [List.map_cons, List.foldr_cons]
          exact Nat.max_eq_right (by omega)
        rw [hM, if_neg hm, List.find?_cons_of_neg _ (by simp; omega)]

theorem detectBest_eq_argmax (text : String) :
    detectBest text
      = if maxSpecificHits text ≤ 0 then ("Unknown", 0)
        else
          match SPECIFIC.find? (fun ik => countHits text ik.2 = maxSpecificHits text) with
          | some ik => (ik.1, countHits text ik.2)
          | none => ("Unknown", 0) := by
  unfold detectBest maxSpecificHits
  exact foldArgmax (fun ik => countHits text ik.2) SPECIFIC ("Unknown", 0)

/-- C3 amended: `detect_industry` returns what the claim's classifier rule
computes over the augmented matching text — the synonym-expanded text
*further extended with the extracted NLP key phrases* — rather than over the
synonym-expanded text alone. -/
theorem C3_classifier (raw : String) :
    (detect_industry raw).1 = claimClassify (augmentedText raw) := by
  rw [detect_industry_fst]
  unfold bestIndustryOf chooseIndustry claimClassify
  by_cases hM : maxSpecificHits (augmentedText raw) = 0
  · rw [if_pos hM]
    have hb : detectBest (augmentedText raw) = ("Unknown", 0) := by
      rw [detectBest_eq_argmax, if_pos (Nat.le_of_eq hM)]
    rw [hb]
    simp
  · rw [if_neg hM]
    have hpos : 0 < maxSpecificHits (augmentedText raw) := Nat.pos_of_ne_zero hM
    rcases listMax_attained (fun ik => countHits (augmentedText raw) ik.2) SPECIFIC
      with h0 | ⟨y, hy, hfy⟩
    · exact absurd h0 hM
    · cases hfind : SPECIFIC.find?
          (fun ik => countHits (augmentedText raw) ik.2 = maxSpecificHits (augmentedText raw))
        with
      | none =>
        have := List.find?_eq_none.mp hfind y hy
        simp only [maxSpecificHits, decide_eq_true_eq] at this
        exact absurd hfy this
      | some ik =>
        have hb : detectBest (augmentedText raw)
            = (ik.1, countHits (augmentedText raw) ik.2) := by
          rw [detectBest_eq_argmax, if_neg (by omega), hfind]
        rw [hb]
        have hne : ik.1 ≠ "Unknown" := by
          have hmem := List.mem_of_find?_eq_some hfind
          have hall : ∀ p ∈ SPECIFIC, p.1 ≠ "Unknown" := by decide
          exact hall ik hmem
        simp [hne]

/-- C3 counterexample: on the raw text "industrial, fuel" the code returns
"Power / Utilities" — the 2-gram key phrase "industrial fuel" appended to
the matching text adds a Power / Utilities keyword hit — while the claim's
rule over the synonym-expanded text alone yields "Marine". -/
theorem C3_counterexample :
    (detect_industry "industrial, fuel").1 = "Power / Utilities" ∧
    claimClassify (expand_text_with_synonyms (lowerStr (clean_text "industrial, fuel")))
      = "Marine" ∧
    (detect_industry "industrial, fuel").1
      ≠ claimClassify (expand_text_with_synonyms (lowerStr (clean_text "industrial, fuel"))) := by
  refine ⟨by decide, by decide, by decide⟩

end HPCL
